import Mathlib

/-!
Shallow embedding of the vkb-bridge core (single-device variant, 42-byte
frames with the VKB2 magic): the snapshot state of linux-sender, the
capture-loop event application, axis normalization and the frame encoder,
and the frame decoder, sequence gate and state applicator of
windows-receiver.

Machine integers are modelled as Nat/Int: u8 bytes as Nat (< 256 on the
wire), u16 as Nat (< 65536), i8/i32/i64 as Int, u64 as Nat with explicit
wrap at 2^64.  The truncating i64 division of the source language is
Int.tdiv.
-/

namespace VkbBridge

/-- Per-axis calibration range, from `struct AxisRange { min: i32, max: i32 }`
in linux-sender. -/
structure AxisRange where
  min : Int
  max : Int
deriving DecidableEq, Repr

/-- Mutable shared snapshot, from `struct SharedState` in linux-sender:
`axes_raw: [i32; 8]`, `hat_x, hat_y: i8`, `buttons: [u8; 16]`,
`revision: u64` (wraps at 2^64). -/
structure SharedState where
  axes_raw : Fin 8 → Int
  hat_x : Int
  hat_y : Int
  buttons : Fin 16 → Nat
  revision : Nat

/-- Rust `value.clamp(-1, 1)` on i32, used for the hat axes. -/
def clampHat (v : Int) : Int :=
  if v < -1 then -1 else if v > 1 then 1 else v

/-- From `fn button_bitpos(btn_id_1_based: u8) -> (usize, u8)` in
linux-sender: byte index `(id-1)/8`, bit index `(id-1)%8`. -/
def button_bitpos (btn_id_1_based : Nat) : Nat × Nat :=
  ((btn_id_1_based - 1) / 8, (btn_id_1_based - 1) % 8)

/-- One already-routed input event, as destructured by `input_thread` in
linux-sender.  `absAxis` carries the slot resolved by `axis_slot` (events
whose axis code is not in `AXIS_CODES` are ignored and not modelled);
`key` carries the zero-based button index `btn : Fin 128`, standing for the
1-based id `btn.val + 1` produced by `button_map` (unmapped keys are
ignored), together with the raw i32 event value. -/
inductive InputEvent where
  | absHat0X (value : Int)
  | absHat0Y (value : Int)
  | absAxis (slot : Fin 8) (value : Int)
  | key (btn : Fin 128) (value : Int)

/-- One step of the capture-loop body in `input_thread` (linux-sender):
compare the mapped/clamped value with the current field, write only on
change, and bump `revision` (wrapping u64) exactly on change. -/
def applyEvent (st : SharedState) (e : InputEvent) : SharedState :=
  match e with
  | .absHat0X value =>
      let v := clampHat value
      if st.hat_x ≠ v then
        { st with hat_x := v, revision := (st.revision + 1) % 2 ^ 64 }
      else st
  | .absHat0Y value =>
      let v := clampHat value
      if st.hat_y ≠ v then
        { st with hat_y := v, revision := (st.revision + 1) % 2 ^ 64 }
      else st
  | .absAxis slot value =>
      if st.axes_raw slot ≠ value then
        { st with axes_raw := Function.update st.axes_raw slot value,
                  revision := (st.revision + 1) % 2 ^ 64 }
      else st
  | .key btn value =>
      let pressed : Bool := value ≠ 0
      let pos := button_bitpos (btn.val + 1)
      let byteI : Fin 16 := ⟨pos.1, by simp [button_bitpos, pos]; omega⟩
      let bitI : Nat := pos.2
      let old : Nat := (st.buttons byteI >>> bitI) &&& 1
      let nw : Nat := if pressed then 1 else 0
      if old ≠ nw then
        { st with
          buttons := Function.update st.buttons byteI
            (if pressed then st.buttons byteI ||| (1 <<< bitI)
             else st.buttons byteI &&& (255 ^^^ (1 <<< bitI))),
          revision := (st.revision + 1) % 2 ^ 64 }
      else st

/-- Whether the mapped/clamped value of an event differs from the current
field value of the snapshot, i.e. the guard under which `input_thread`
writes and bumps `revision`. -/
def eventChanges (st : SharedState) (e : InputEvent) : Bool :=
  match e with
  | .absHat0X value => st.hat_x ≠ clampHat value
  | .absHat0Y value => st.hat_y ≠ clampHat value
  | .absAxis slot value => st.axes_raw slot ≠ value
  | .key btn value =>
      let pos := button_bitpos (btn.val + 1)
      let byteI : Fin 16 := ⟨pos.1, by simp [button_bitpos, pos]; omega⟩
      ((st.buttons byteI >>> pos.2) &&& 1) ≠ (if (value ≠ 0 : Bool) then 1 else 0)

/-- From `fn normalize_axis(raw: i32, r: AxisRange) -> u16` in linux-sender:
a degenerate range returns `VJOY_AXIS_MAX / 2 = 16384`; otherwise 64-bit
`(raw - min) * 32768 / (max - min)` with truncating division, then clamped
to `[0, 32768]` and returned as u16. -/
def normalize_axis (raw : Int) (r : AxisRange) : Nat :=
  if r.max = r.min then 16384
  else
    let num : Int := (raw - r.min) * 32768
    let den : Int := r.max - r.min
    let out : Int := num.tdiv den
    (if out < 0 then (0 : Int) else if out > 32768 then 32768 else out).toNat

/-- Rust `v as u8` on an i8 value: the two-complement byte, `v mod 256`. -/
def u8_of_i8 (v : Int) : Nat := (v % 256).toNat

/-- Rust `b as i8` on a u8 value: bytes at least 128 become negative. -/
def i8_of_u8 (b : Nat) : Int := if b < 128 then (b : Int) else (b : Int) - 256

/-- From `fn encode_vkb2(buf, seq, st, ranges)` in linux-sender: the 42-byte
frame, listed byte by byte at the offsets used by the source — magic VKB2
(bytes 86,75,66,50), version 2, reserved 0, `seq` u16 LE (`seq` is a u16,
i.e. `seq < 65536`), 8 normalized axes u16 LE, `hat_x`/`hat_y` i8 as u8,
16 button bytes. -/
def encode_vkb2 (seq : Nat) (st : SharedState) (ranges : Fin 8 → AxisRange) :
    List Nat :=
  let a : Fin 8 → Nat := fun i => normalize_axis (st.axes_raw i) (ranges i)
  [86, 75, 66, 50,
   2, 0,
   seq % 256, seq / 256,
   a 0 % 256, a 0 / 256, a 1 % 256, a 1 / 256,
   a 2 % 256, a 2 / 256, a 3 % 256, a 3 / 256,
   a 4 % 256, a 4 / 256, a 5 % 256, a 5 / 256,
   a 6 % 256, a 6 / 256, a 7 % 256, a 7 / 256,
   u8_of_i8 st.hat_x, u8_of_i8 st.hat_y,
   st.buttons 0, st.buttons 1, st.buttons 2, st.buttons 3,
   st.buttons 4, st.buttons 5, st.buttons 6, st.buttons 7,
   st.buttons 8, st.buttons 9, st.buttons 10, st.buttons 11,
   st.buttons 12, st.buttons 13, st.buttons 14, st.buttons 15]

/-- Decoded frame, from `struct Packet` in windows-receiver. -/
structure Packet where
  seq : Nat
  axes : Fin 8 → Nat
  hat_x : Int
  hat_y : Int
  buttons : Fin 16 → Nat
deriving DecidableEq

/-- From `const PKT_LEN: usize = 42` in windows-receiver. -/
def PKT_LEN : Nat := 42

/-- Error text of the length check in `decode_vkb2`. -/
def errTooShort : String := "too short"

/-- Error text of the magic check in `decode_vkb2`. -/
def errBadMagic : String := "bad magic"

/-- Error text of the version check in `decode_vkb2`. -/
def errBadVersion : String := "bad version"

/-- From `fn decode_vkb2(data: &[u8]) -> Result<Packet>` in windows-receiver:
reject if `data.len() < PKT_LEN`, then if bytes 0..4 are not the VKB2 magic,
then if byte 4 is not 2; otherwise read seq at 6..8 (u16 LE), axes at 8..24
(8 times u16 LE), hats at 24/25 (u8 as i8), buttons at 26..42. -/
def decode_vkb2 (data : List Nat) : Except String Packet :=
  if data.length < PKT_LEN then .error errTooShort
  else if ¬(data.getD 0 0 = 86 ∧ data.getD 1 0 = 75 ∧
            data.getD 2 0 = 66 ∧ data.getD 3 0 = 50) then .error errBadMagic
  else if data.getD 4 0 ≠ 2 then .error errBadVersion
  else .ok
    { seq := data.getD 6 0 + 256 * data.getD 7 0
      axes := fun i => data.getD (8 + 2 * i.val) 0 + 256 * data.getD (9 + 2 * i.val) 0
      hat_x := i8_of_u8 (data.getD 24 0)
      hat_y := i8_of_u8 (data.getD 25 0)
      buttons := fun i => data.getD (26 + i.val) 0 }

/-- From `fn xor_16(a, b)` in windows-receiver: bytewise XOR of two
16-byte button sets. -/
def xor_16 (a b : Fin 16 → Nat) : Fin 16 → Nat := fun i => a i ^^^ b i

/-- The button-update pass of the state applicator in the main loop of
windows-receiver: scan delta bytes 0..16 and bits 0..8 in order and emit one
`set_button` write `(byte_i * 8 + bit + 1, pressed)` per changed bit, where
`pressed` is the value of that bit in the packet buttons.  The `continue` of
the source on an all-zero delta byte and the outer all-zero-delta guard skip
no writes and are modelled by emitting nothing for unset bits. -/
def button_writes (pkt last : Fin 16 → Nat) : List (Nat × Bool) :=
  (List.finRange 16).flatMap fun byteI =>
    (List.finRange 8).filterMap fun bit =>
      if (xor_16 pkt last byteI) &&& (1 <<< bit.val) = 0 then none
      else some (byteI.val * 8 + bit.val + 1, ((pkt byteI &&& (1 <<< bit.val)) ≠ 0 : Bool))

/-- From `fn is_newer_u16(a, b) -> bool` in windows-receiver:
`diff = a.wrapping_sub(b)` on u16 (both arguments are u16, < 65536), newer
iff `diff != 0 && diff < 0x8000`. -/
def is_newer_u16 (a b : Nat) : Bool :=
  let diff := (a + 65536 - b) % 65536
  decide (diff ≠ 0) && decide (diff < 32768)

/-- Sequence-gate state of the receiver main loop: `last_seq` plus the
observability counters `applied`, `dup`, `ooo`, `lost_est` (all u64; the
counters never reach 2^64 in the model so plain Nat addition is used). -/
structure Gate where
  lastSeq : Option Nat
  applied : Nat
  dup : Nat
  ooo : Nat
  lost : Nat
deriving DecidableEq, Repr

/-- Classification of one received sequence number by the gate. -/
inductive Verdict where
  | applied
  | duplicate
  | outOfOrder
deriving DecidableEq, Repr

/-- One pass of the `should_apply` computation and its consequences in the
main loop of windows-receiver, for a received u16 sequence `seq`:
uninitialized always applies; `seq == prev` counts a duplicate and does not
apply; `is_newer_u16 seq prev` applies, adds `diff - 1` to `lost_est` when
`diff > 1`, and sets `last_seq := seq`; otherwise counts out-of-order and
does not apply. -/
def gate_step (g : Gate) (seq : Nat) : Gate × Verdict :=
  match g.lastSeq with
  | none => ({ g with lastSeq := some seq, applied := g.applied + 1 }, .applied)
  | some prev =>
      if seq = prev then ({ g with dup := g.dup + 1 }, .duplicate)
      else if is_newer_u16 seq prev then
        let diff := (seq + 65536 - prev) % 65536
        let g1 := if diff > 1 then { g with lost := g.lost + (diff - 1) } else g
        ({ g1 with lastSeq := some seq, applied := g.applied + 1 }, .applied)
      else ({ g with ooo := g.ooo + 1 }, .outOfOrder)

/-- The 4-way hat positions of the vjoy crate. -/
inductive FourWayHat where
  | Centered
  | North
  | East
  | South
  | West
deriving DecidableEq, Repr

/-- Hat state of the vjoy crate: discrete 4-way or continuous 1/100-degree
angle (u32; `u32::MAX = 4294967295` is the centered sentinel). -/
inductive HatState where
  | Discrete (v : FourWayHat)
  | Continuous (v : Nat)
deriving DecidableEq, Repr

/-- From `fn hatstate_from_xy(x: i8, y: i8, hat_mode: HatState) -> HatState`
in windows-receiver: clamp both components to {-1,0,1}, then in discrete
mode collapse diagonals preferring vertical, and in continuous mode map the
8 directions to degrees at 45-degree steps times 100, with `u32::MAX` for
centered.  The if-chains mirror the source match arms in order; the arms
are pairwise disjoint. -/
def hatstate_from_xy (x y : Int) (hat_mode : HatState) : HatState :=
  let x := clampHat x
  let y := clampHat y
  match hat_mode with
  | .Discrete _ =>
      let v :=
        if x = 0 ∧ y = 0 then FourWayHat.Centered
        else if x = 0 ∧ y = -1 then FourWayHat.North
        else if x = 0 ∧ y = 1 then FourWayHat.South
        else if x = 1 ∧ y = 0 then FourWayHat.East
        else if x = -1 ∧ y = 0 then FourWayHat.West
        else if x = 1 ∧ y = -1 then FourWayHat.North
        else if x = -1 ∧ y = -1 then FourWayHat.North
        else if x = 1 ∧ y = 1 then FourWayHat.South
        else if x = -1 ∧ y = 1 then FourWayHat.South
        else FourWayHat.Centered
      HatState.Discrete v
  | .Continuous _ =>
      if x = 0 ∧ y = 0 then HatState.Continuous 4294967295
      else if x = 0 ∧ y = -1 then HatState.Continuous (0 * 100)
      else if x = 1 ∧ y = -1 then HatState.Continuous (45 * 100)
      else if x = 1 ∧ y = 0 then HatState.Continuous (90 * 100)
      else if x = 1 ∧ y = 1 then HatState.Continuous (135 * 100)
      else if x = 0 ∧ y = 1 then HatState.Continuous (180 * 100)
      else if x = -1 ∧ y = 1 then HatState.Continuous (225 * 100)
      else if x = -1 ∧ y = 0 then HatState.Continuous (270 * 100)
      else if x = -1 ∧ y = -1 then HatState.Continuous (315 * 100)
      else HatState.Continuous 4294967295

/-! Helper lemmas shared by several claims. -/

lemma tdiv_nonpos_of_nonpos {a d : Int} (ha : a ≤ 0) (hd : 0 ≤ d) : a.tdiv d ≤ 0 := by
  have h1 : 0 ≤ (-a).tdiv d := Int.tdiv_nonneg (by omega) hd
  have h2 : (-a).tdiv d = -(a.tdiv d) := Int.neg_tdiv a d
  omega

lemma tdiv_le_tdiv_right {a b d : Int} (hd : 0 < d) (ha : 0 ≤ a) (hab : a ≤ b) :
    a.tdiv d ≤ b.tdiv d := by
  rw [Int.tdiv_eq_ediv ha (by omega), Int.tdiv_eq_ediv (by omega) (by omega)]
  exact Int.ediv_le_ediv hd hab

/-- Decoding depends only on the list length (via the minimum-length test)
and on the bytes at indices below `PKT_LEN` other than index 5. -/
lemma decode_vkb2_eq_of_agree (d1 d2 : List Nat)
    (hlen : d1.length < PKT_LEN ↔ d2.length < PKT_LEN)
    (h : ∀ i, i < PKT_LEN → i ≠ 5 → d1.getD i 0 = d2.getD i 0) :
    decode_vkb2 d1 = decode_vkb2 d2 := by
  have hlen2 : (d1.length < PKT_LEN) = (d2.length < PKT_LEN) := propext hlen
  have h0 := h 0 (by decide) (by decide)
  have h1 := h 1 (by decide) (by decide)
  have h2 := h 2 (by decide) (by decide)
  have h3 := h 3 (by decide) (by decide)
  have h4 := h 4 (by decide) (by decide)
  have h6 := h 6 (by decide) (by decide)
  have h7 := h 7 (by decide) (by decide)
  have h24 := h 24 (by decide) (by decide)
  have h25 := h 25 (by decide) (by decide)
  have hax : (fun (i : Fin 8) => d1.getD (8 + 2 * i.val) 0 + 256 * d1.getD (9 + 2 * i.val) 0)
      = fun (i : Fin 8) => d2.getD (8 + 2 * i.val) 0 + 256 * d2.getD (9 + 2 * i.val) 0 := by
    funext i
    have hi := i.isLt
    rw [h (8 + 2 * i.val) (by simp [PKT_LEN]; omega) (by omega),
        h (9 + 2 * i.val) (by simp [PKT_LEN]; omega) (by omega)]
  have hbt : (fun (i : Fin 16) => d1.getD (26 + i.val) 0)
      = fun (i : Fin 16) => d2.getD (26 + i.val) 0 := by
    funext i
    have hi := i.isLt
    rw [h (26 + i.val) (by simp [PKT_LEN]; omega) (by omega)]
  simp only [decode_vkb2, hlen2, h0, h1, h2, h3, h4, h6, h7, h24, h25, hax, hbt]

/-- Success case of the decoder: with the length, magic and version checks
passing, `decode_vkb2` returns the fields extracted at the fixed offsets. -/
lemma decode_vkb2_ok (data : List Nat)
    (hge : PKT_LEN ≤ data.length)
    (hmagic : data.getD 0 0 = 86 ∧ data.getD 1 0 = 75 ∧
      data.getD 2 0 = 66 ∧ data.getD 3 0 = 50)
    (hver : data.getD 4 0 = 2) :
    decode_vkb2 data = .ok
      { seq := data.getD 6 0 + 256 * data.getD 7 0
        axes := fun i => data.getD (8 + 2 * i.val) 0 + 256 * data.getD (9 + 2 * i.val) 0
        hat_x := i8_of_u8 (data.getD 24 0)
        hat_y := i8_of_u8 (data.getD 25 0)
        buttons := fun i => data.getD (26 + i.val) 0 } := by
  have hnl : ¬(data.length < PKT_LEN) := by omega
  unfold decode_vkb2
  rw [if_neg hnl, if_neg (not_not_intro hmagic), if_neg (fun h => h hver)]

lemma getbit_set (b i : Nat) : ((b ||| (1 <<< i)) >>> i) &&& 1 = 1 := by
  have hpow : (1 : Nat) <<< i = 2 ^ i := by
    simp [Nat.shiftLeft_eq]
  have ht : (b ||| 2 ^ i).testBit i = true := by
    simp [Nat.testBit_lor, Nat.testBit_two_pow_self]
  rw [Nat.testBit_to_div_mod, decide_eq_true_eq] at ht
  rw [hpow, Nat.and_one_is_mod, Nat.shiftRight_eq_div_pow]
  exact ht

lemma getbit_clear (b i : Nat) (hi : i < 8) :
    ((b &&& (255 ^^^ (1 <<< i))) >>> i) &&& 1 = 0 := by
  have hpow : (1 : Nat) <<< i = 2 ^ i := by
    simp [Nat.shiftLeft_eq]
  have h255 : (255 : Nat) = 2 ^ 8 - 1 := by norm_num
  have ht : (b &&& (255 ^^^ 2 ^ i)).testBit i = false := by
    rw [Nat.testBit_land, Nat.testBit_xor, h255, Nat.testBit_two_pow_sub_one]
    simp [Nat.testBit_two_pow_self, hi]
  rw [Nat.testBit_to_div_mod, decide_eq_false_iff_not] at ht
  rw [hpow, Nat.and_one_is_mod, Nat.shiftRight_eq_div_pow]
  omega

lemma getbit_set2 (b i : Nat) : (b ||| 1 <<< i) >>> i % 2 = 1 := by
  have := getbit_set b i
  rwa [Nat.and_one_is_mod] at this

lemma getbit_clear2 (b i : Nat) (hi : i < 8) : (b &&& (255 ^^^ 1 <<< i)) >>> i % 2 = 0 := by
  have := getbit_clear b i hi
  rwa [Nat.and_one_is_mod] at this

/-! Claim theorems. -/

/-- C1: sequence-gate transition rule.  With `diff = (seq - prev) mod 2^16`:
an uninitialized gate always applies and starts tracking `seq`; a tracked
gate applies exactly when `diff` is nonzero and below 32768, classifies
`seq = prev` as duplicate without applying, on apply moves `last_seq` to
`seq` and adds `diff - 1` to the loss estimate (zero when `diff = 1`), and
classifies `diff` at or above 32768 as out-of-order without applying.
Concrete cases: last=100 with seq 101 applies without loss, seq 100 is a
duplicate, seq 50 is out-of-order, last=65535 with seq 0 applies without
loss, and last=5 with seq 200 applies adding 194 to the loss estimate. -/
theorem gate_step_spec :
    (∀ (g : Gate) (seq : Nat), g.lastSeq = none →
      gate_step g seq = ({ g with lastSeq := some seq, applied := g.applied + 1 }, .applied)) ∧
    (∀ (g : Gate) (p seq : Nat), g.lastSeq = some p → p < 65536 → seq < 65536 →
      ((gate_step g seq).2 = .applied ↔
        (seq + 65536 - p) % 65536 ≠ 0 ∧ (seq + 65536 - p) % 65536 < 32768) ∧
      (seq = p → gate_step g seq = ({ g with dup := g.dup + 1 }, .duplicate)) ∧
      ((seq + 65536 - p) % 65536 ≠ 0 → (seq + 65536 - p) % 65536 < 32768 →
        (gate_step g seq).1.lastSeq = some seq ∧
        (gate_step g seq).1.lost = g.lost + ((seq + 65536 - p) % 65536 - 1)) ∧
      (32768 ≤ (seq + 65536 - p) % 65536 →
        gate_step g seq = ({ g with ooo := g.ooo + 1 }, .outOfOrder))) ∧
    (gate_step ⟨some 100, 0, 0, 0, 0⟩ 101 = (⟨some 101, 1, 0, 0, 0⟩, .applied) ∧
     gate_step ⟨some 100, 0, 0, 0, 0⟩ 100 = (⟨some 100, 0, 1, 0, 0⟩, .duplicate) ∧
     gate_step ⟨some 100, 0, 0, 0, 0⟩ 50 = (⟨some 100, 0, 0, 1, 0⟩, .outOfOrder) ∧
     gate_step ⟨some 65535, 0, 0, 0, 0⟩ 0 = (⟨some 0, 1, 0, 0, 0⟩, .applied) ∧
     gate_step ⟨some 5, 0, 0, 0, 0⟩ 200 = (⟨some 200, 1, 0, 0, 194⟩, .applied)) := by
  refine ⟨?_, ?_, ?_⟩
  · intro g seq h
    simp [gate_step, h]
  · intro g p seq h hp hseq
    refine ⟨?_, ?_, ?_, ?_⟩
    · by_cases hsp : seq = p
      · simp [gate_step, h, hsp]
      · by_cases hnew : is_newer_u16 seq p = true
        · simp only [is_newer_u16, Bool.and_eq_true, decide_eq_true_eq] at hnew
          have hnew1 : is_newer_u16 seq p = true := by
            simp [is_newer_u16]
            omega
          simp [gate_step, h, hsp, hnew1]
          omega
        · simp only [is_newer_u16, Bool.and_eq_true, decide_eq_true_eq] at hnew
          have hnew2 : is_newer_u16 seq p = false := by
            simp [is_newer_u16]
            omega
          simp [gate_step, h, hsp, hnew2]
          omega
    · intro hsp
      simp [gate_step, h, hsp]
    · intro hd1 hd2
      have hsp : ¬(seq = p) := by omega
      have hnew : is_newer_u16 seq p = true := by
        simp only [is_newer_u16, Bool.and_eq_true, decide_eq_true_eq]
        exact ⟨hd1, hd2⟩
      by_cases hgt : (seq + 65536 - p) % 65536 > 1
      · simp [gate_step, h, hsp, hnew, hgt]
      · have : (seq + 65536 - p) % 65536 = 1 := by omega
        simp [gate_step, h, hsp, hnew, this]
    · intro hge
      have hsp : ¬(seq = p) := by omega
      have hnew : ¬(is_newer_u16 seq p = true) := by
        simp only [is_newer_u16, Bool.and_eq_true, decide_eq_true_eq]
        omega
      simp [gate_step, h, hsp, hnew]
  · refine ⟨by decide, by decide, by decide, by decide, by decide⟩

/-- C1 witness: the gate theorem applied at concrete states — bootstrap on
sequence 7, duplicate at 10, and an applied jump from 10 to 13 with its
loss increment. -/
theorem gate_step_spec_witness :
    gate_step ⟨none, 0, 0, 0, 0⟩ 7 = (⟨some 7, 1, 0, 0, 0⟩, .applied) ∧
    gate_step ⟨some 10, 0, 0, 0, 0⟩ 10 = (⟨some 10, 0, 1, 0, 0⟩, .duplicate) ∧
    (gate_step ⟨some 10, 0, 0, 0, 0⟩ 13).1.lastSeq = some 13 ∧
    (gate_step ⟨some 10, 0, 0, 0, 0⟩ 13).1.lost = 0 + ((13 + 65536 - 10) % 65536 - 1) := by
  refine ⟨gate_step_spec.1 ⟨none, 0, 0, 0, 0⟩ 7 rfl, ?_, ?_, ?_⟩
  · exact (gate_step_spec.2.1 ⟨some 10, 0, 0, 0, 0⟩ 10 10 rfl (by decide) (by decide)).2.1 rfl
  · exact ((gate_step_spec.2.1 ⟨some 10, 0, 0, 0, 0⟩ 10 13 rfl (by decide)
      (by decide)).2.2.1 (by decide) (by decide)).1
  · exact ((gate_step_spec.2.1 ⟨some 10, 0, 0, 0, 0⟩ 10 13 rfl (by decide)
      (by decide)).2.2.1 (by decide) (by decide)).2

/-- C2: round-trip.  For every u16 sequence and every snapshot with hat
components in {-1,0,1}, decoding the encoded 42-byte frame succeeds and
returns the sequence, the normalized axes, the hat components and the
button set of the snapshot. -/
theorem decode_encode_roundtrip (seq : Nat) (st : SharedState) (ranges : Fin 8 → AxisRange)
    (_hseq : seq < 65536)
    (hx : st.hat_x = -1 ∨ st.hat_x = 0 ∨ st.hat_x = 1)
    (hy : st.hat_y = -1 ∨ st.hat_y = 0 ∨ st.hat_y = 1) :
    decode_vkb2 (encode_vkb2 seq st ranges) =
      .ok { seq := seq
            axes := fun i => normalize_axis (st.axes_raw i) (ranges i)
            hat_x := st.hat_x
            hat_y := st.hat_y
            buttons := st.buttons } := by
  have hmagic : ((encode_vkb2 seq st ranges).getD 0 0 = 86 ∧
      (encode_vkb2 seq st ranges).getD 1 0 = 75 ∧
      (encode_vkb2 seq st ranges).getD 2 0 = 66 ∧
      (encode_vkb2 seq st ranges).getD 3 0 = 50) := by
    refine ⟨rfl, rfl, rfl, rfl⟩
  have hver : (encode_vkb2 seq st ranges).getD 4 0 = 2 := rfl
  have hlen : (encode_vkb2 seq st ranges).length = PKT_LEN := by
    simp [encode_vkb2, PKT_LEN]
  have h4 := decode_vkb2_ok (encode_vkb2 seq st ranges) (by omega) hmagic hver
  rw [h4]
  congr 1
  have hseqf : (encode_vkb2 seq st ranges).getD 6 0 +
      256 * (encode_vkb2 seq st ranges).getD 7 0 = seq := by
    show seq % 256 + 256 * (seq / 256) = seq
    omega
  have haxf : (fun (i : Fin 8) => (encode_vkb2 seq st ranges).getD (8 + 2 * i.val) 0 +
      256 * (encode_vkb2 seq st ranges).getD (9 + 2 * i.val) 0) =
      fun i => normalize_axis (st.axes_raw i) (ranges i) := by
    funext i
    fin_cases i <;> exact Nat.mod_add_div _ 256
  have hhx : i8_of_u8 ((encode_vkb2 seq st ranges).getD 24 0) = st.hat_x := by
    show i8_of_u8 (u8_of_i8 st.hat_x) = st.hat_x
    rcases hx with h | h | h <;> rw [h] <;> decide
  have hhy : i8_of_u8 ((encode_vkb2 seq st ranges).getD 25 0) = st.hat_y := by
    show i8_of_u8 (u8_of_i8 st.hat_y) = st.hat_y
    rcases hy with h | h | h <;> rw [h] <;> decide
  have hbtf : (fun (i : Fin 16) => (encode_vkb2 seq st ranges).getD (26 + i.val) 0)
      = st.buttons := by
    funext i
    fin_cases i <;> rfl
  rw [hseqf, haxf, hhx, hhy, hbtf]

/-- C2 witness: the round-trip theorem applied at sequence 777 and a
concrete snapshot with hat (1,-1), raw axes 25 in range 0..100 and
button byte pattern i. -/
theorem decode_encode_roundtrip_witness :
    decode_vkb2 (encode_vkb2 777
      { axes_raw := fun _ => 25, hat_x := 1, hat_y := -1,
        buttons := fun i => i.val, revision := 3 }
      (fun _ => { min := 0, max := 100 })) =
    .ok { seq := 777,
          axes := fun _ => normalize_axis 25 { min := 0, max := 100 },
          hat_x := 1, hat_y := -1, buttons := fun i => i.val } := by
  exact decode_encode_roundtrip 777 _ _ (by decide) (by decide) (by decide)

/-- C3: axis normalization.  For a proper range (min < max) the function is
monotonic non-decreasing in the raw value, bounded by 32768 on the range,
maps min to 0 and max to 32768; a degenerate range (min = max) yields
exactly 16384 for every raw value. -/
theorem normalize_axis_spec :
    (∀ r : AxisRange, r.min < r.max →
      (∀ raw1 raw2 : Int, raw1 ≤ raw2 → normalize_axis raw1 r ≤ normalize_axis raw2 r) ∧
      (∀ raw : Int, r.min ≤ raw → raw ≤ r.max → normalize_axis raw r ≤ 32768) ∧
      normalize_axis r.min r = 0 ∧
      normalize_axis r.max r = 32768) ∧
    (∀ r : AxisRange, r.min = r.max → ∀ raw : Int, normalize_axis raw r = 16384) := by
  constructor
  · intro r hr
    have hne : ¬(r.max = r.min) := by omega
    refine ⟨?_, ?_, ?_, ?_⟩
    · intro raw1 raw2 h12
      simp only [normalize_axis, hne, if_false]
      by_cases h1 : 0 ≤ (raw1 - r.min) * 32768
      · have hle : (raw1 - r.min) * 32768 ≤ (raw2 - r.min) * 32768 := by nlinarith
        have := tdiv_le_tdiv_right (d := r.max - r.min) (by omega) h1 hle
        split_ifs <;> omega
      · have hnp : ((raw1 - r.min) * 32768).tdiv (r.max - r.min) ≤ 0 :=
          tdiv_nonpos_of_nonpos (by omega) (by omega)
        split_ifs <;> omega
    · intro raw _ _
      simp only [normalize_axis, hne, if_false]
      split_ifs <;> omega
    · simp only [normalize_axis, hne, if_false, sub_self, Int.zero_mul, Int.zero_tdiv]
      norm_num
    · simp only [normalize_axis, hne, if_false]
      rw [Int.mul_tdiv_cancel_left 32768 (by omega : (r.max - r.min : Int) ≠ 0)]
      decide
  · intro r h raw
    simp [normalize_axis, h]

/-- C3 witness: the normalization theorem applied at the range -100..100
(endpoints and monotonicity at 0 and 50) and the degenerate range 7..7. -/
theorem normalize_axis_spec_witness :
    normalize_axis (-100) ⟨-100, 100⟩ = 0 ∧
    normalize_axis 100 ⟨-100, 100⟩ = 32768 ∧
    normalize_axis 3 ⟨7, 7⟩ = 16384 ∧
    normalize_axis 0 ⟨-100, 100⟩ ≤ normalize_axis 50 ⟨-100, 100⟩ := by
  refine ⟨(normalize_axis_spec.1 ⟨-100, 100⟩ (by decide)).2.2.1,
          (normalize_axis_spec.1 ⟨-100, 100⟩ (by decide)).2.2.2,
          normalize_axis_spec.2 ⟨7, 7⟩ rfl 3,
          (normalize_axis_spec.1 ⟨-100, 100⟩ (by decide)).1 0 50 (by decide)⟩

/-- C4 counterexample: two button sets differing in exactly byte 1 bit 0
produce exactly one write, but it targets button id 9 (= 1*8 + 0 + 1),
not id 10 as the claim states. -/
theorem button_writes_byte1_bit0 :
    button_writes (fun i => if i = 1 then 1 else 0) (fun _ => 0) = [(9, true)] ∧
    (9 : Nat) ≠ 10 := by
  constructor
  · decide
  · decide

/-- C4 as amended: when two button sets differ in exactly overall bit index
9 — byte 1 bit 1 (not byte 1 bit 0) — exactly one button-state write is
issued, and it targets button id 10 (= 1*8 + 1 + 1), with the pressed state
taken from that bit of the new set. -/
theorem button_writes_single_bit (pkt last : Fin 16 → Nat)
    (h : xor_16 pkt last = fun i => if i = 1 then 2 else 0) :
    button_writes pkt last = [(10, ((pkt 1 &&& 2 ≠ 0 : Bool)))] := by
  simp only [button_writes, h]
  rfl

/-- C4 witness: the amended theorem applied with new set having only byte 1
bit 1 set and old set empty. -/
theorem button_writes_single_bit_witness :
    button_writes (fun i => if i = 1 then 2 else 0) (fun _ => 0) = [(10, true)] := by
  have h : xor_16 (fun i => if i = 1 then 2 else 0) (fun _ => 0)
      = fun i => if i = 1 then 2 else 0 := by
    funext i
    simp [xor_16]
  exact (button_writes_single_bit _ _ h).trans (by decide)

/-- C5 counterexample: a 43-byte payload whose first 42 bytes form a valid
frame is accepted by the decoder, so payloads whose length differs from 42
are not all rejected. -/
theorem decode_vkb2_accepts_43 :
    (([86, 75, 66, 50, 2, 0] ++ List.replicate 37 0 : List Nat).length ≠ PKT_LEN) ∧
    (decode_vkb2 ([86, 75, 66, 50, 2, 0] ++ List.replicate 37 0)).isOk = true := by
  constructor
  · decide
  · decide

/-- C5 as amended: the length test is a minimum-length check.  Every payload
shorter than 42 bytes is rejected before further parsing; a payload of 42 or
more bytes passes the length check and decodes exactly as its first 42 bytes
do (trailing bytes are ignored). -/
theorem decode_vkb2_min_length (data : List Nat) :
    (data.length < PKT_LEN → decode_vkb2 data = .error errTooShort) ∧
    (PKT_LEN ≤ data.length → decode_vkb2 data = decode_vkb2 (data.take PKT_LEN)) := by
  constructor
  · intro hlt
    simp [decode_vkb2, hlt]
  · intro hge
    refine decode_vkb2_eq_of_agree data (data.take PKT_LEN) ?_ ?_
    · simp [List.length_take]
    · intro i hi _
      have : (data.take PKT_LEN).getD i 0 = data.getD i 0 := by
        simp [List.getD, List.getElem?_take, hi]
      exact this.symm

/-- C5 witness: the amended theorem applied to a 3-byte payload (rejected as
too short) and to a 43-byte payload (decodes as its first 42 bytes). -/
theorem decode_vkb2_min_length_witness :
    decode_vkb2 [1, 2, 3] = .error errTooShort ∧
    decode_vkb2 (List.replicate 43 5) = decode_vkb2 ((List.replicate 43 5).take PKT_LEN) := by
  exact ⟨(decode_vkb2_min_length [1, 2, 3]).1 (by decide),
         (decode_vkb2_min_length (List.replicate 43 5)).2 (by decide)⟩

/-- C6: decoder checks in order — minimum length, then the VKB2 magic
(bytes 86,75,66,50), then version byte 2.  Each failing check yields the
corresponding error value of the total decode function (no crash), and when
all pass the sequence, axes, signed hat bytes and 16 button bytes are
extracted verbatim from the fixed offsets. -/
theorem decode_vkb2_check_order (data : List Nat) :
    (data.length < PKT_LEN → decode_vkb2 data = .error errTooShort) ∧
    (PKT_LEN ≤ data.length →
      ¬(data.getD 0 0 = 86 ∧ data.getD 1 0 = 75 ∧ data.getD 2 0 = 66 ∧ data.getD 3 0 = 50) →
      decode_vkb2 data = .error errBadMagic) ∧
    (PKT_LEN ≤ data.length →
      (data.getD 0 0 = 86 ∧ data.getD 1 0 = 75 ∧ data.getD 2 0 = 66 ∧ data.getD 3 0 = 50) →
      data.getD 4 0 ≠ 2 → decode_vkb2 data = .error errBadVersion) ∧
    (PKT_LEN ≤ data.length →
      (data.getD 0 0 = 86 ∧ data.getD 1 0 = 75 ∧ data.getD 2 0 = 66 ∧ data.getD 3 0 = 50) →
      data.getD 4 0 = 2 →
      decode_vkb2 data = .ok
        { seq := data.getD 6 0 + 256 * data.getD 7 0
          axes := fun i => data.getD (8 + 2 * i.val) 0 + 256 * data.getD (9 + 2 * i.val) 0
          hat_x := i8_of_u8 (data.getD 24 0)
          hat_y := i8_of_u8 (data.getD 25 0)
          buttons := fun i => data.getD (26 + i.val) 0 }) := by
  refine ⟨?_, ?_, ?_, ?_⟩
  · intro hlt
    unfold decode_vkb2
    rw [if_pos hlt]
  · intro hge hmagic
    have hnl : ¬(data.length < PKT_LEN) := by omega
    unfold decode_vkb2
    rw [if_neg hnl, if_pos hmagic]
  · intro hge hmagic hver
    have hnl : ¬(data.length < PKT_LEN) := by omega
    unfold decode_vkb2
    rw [if_neg hnl, if_neg (not_not_intro hmagic), if_pos hver]
  · intro hge hmagic hver
    exact decode_vkb2_ok data hge hmagic hver

/-- C6 witness: the check-order theorem applied to a 1-byte payload, an
all-zero 42-byte payload (bad magic), a frame with version byte 7, and a
valid all-zero frame (accepted). -/
theorem decode_vkb2_check_order_witness :
    decode_vkb2 [0] = .error errTooShort ∧
    decode_vkb2 (List.replicate 42 0) = .error errBadMagic ∧
    decode_vkb2 ([86, 75, 66, 50, 7, 0] ++ List.replicate 36 0) = .error errBadVersion ∧
    (decode_vkb2 ([86, 75, 66, 50, 2, 0] ++ List.replicate 36 0)).isOk = true := by
  refine ⟨(decode_vkb2_check_order [0]).1 (by decide),
          (decode_vkb2_check_order _).2.1 (by decide) (by decide),
          (decode_vkb2_check_order _).2.2.1 (by decide) (by decide) (by decide),
          ?_⟩
  rw [(decode_vkb2_check_order ([86, 75, 66, 50, 2, 0] ++ List.replicate 36 0)).2.2.2
    (by decide) (by decide) (by decide)]
  rfl

/-- C7: revision counter.  For every snapshot and event, the revision after
applying the event is bumped by exactly 1 (wrapping at 2^64) when the
mapped/clamped value differs from the current field and is unchanged
otherwise; moreover applying the same event twice equals applying it once,
so repeated identical events never advance the revision. -/
theorem applyEvent_revision (st : SharedState) (e : InputEvent) :
    ((applyEvent st e).revision =
      if eventChanges st e then (st.revision + 1) % 2 ^ 64 else st.revision) ∧
    applyEvent (applyEvent st e) e = applyEvent st e := by
  cases e with
  | absHat0X value =>
    by_cases h : st.hat_x ≠ clampHat value
    · constructor
      · simp [applyEvent, eventChanges, h]
      · simp [applyEvent, eventChanges, h]
    · constructor
      · simp [applyEvent, eventChanges, h]
      · simp [applyEvent, eventChanges, h]
  | absHat0Y value =>
    by_cases h : st.hat_y ≠ clampHat value
    · constructor
      · simp [applyEvent, eventChanges, h]
      · simp [applyEvent, eventChanges, h]
    · constructor
      · simp [applyEvent, eventChanges, h]
      · simp [applyEvent, eventChanges, h]
  | absAxis slot value =>
    by_cases h : st.axes_raw slot ≠ value
    · constructor
      · simp [applyEvent, eventChanges, h]
      · simp [applyEvent, eventChanges, h, Function.update_same]
    · constructor
      · simp [applyEvent, eventChanges, h]
      · simp [applyEvent, eventChanges, h]
  | key btn value =>
    have hbit : (button_bitpos (btn.val + 1)).2 < 8 := by
      simp [button_bitpos]
      omega
    by_cases h : (st.buttons ⟨(button_bitpos (btn.val + 1)).1, by simp [button_bitpos]; omega⟩ >>>
        (button_bitpos (btn.val + 1)).2) % 2 = (if value = 0 then 0 else 1)
    · constructor
      · simp [applyEvent, eventChanges, h]
      · simp [applyEvent, eventChanges, h]
    · constructor
      · simp [applyEvent, eventChanges, h]
      · by_cases hp : value = 0
        · simp only [hp, if_true, if_pos rfl] at h
          have h1 : st.buttons ⟨(button_bitpos (btn.val + 1)).1,
              by simp [button_bitpos]; omega⟩ >>> (button_bitpos (btn.val + 1)).2 % 2 = 1 := by
            omega
          simp [applyEvent, eventChanges, hp, h1, Function.update_same,
            getbit_clear2 _ _ hbit]
        · simp only [hp, if_false, if_neg hp] at h
          have h0 : st.buttons ⟨(button_bitpos (btn.val + 1)).1,
              by simp [button_bitpos]; omega⟩ >>> (button_bitpos (btn.val + 1)).2 % 2 = 0 := by
            omega
          simp [applyEvent, eventChanges, hp, h0, Function.update_same, getbit_set2]

/-- C8: hat mapping.  In discrete mode both diagonals with y = -1 collapse
to North (vertical preferred) and (0,0) is Centered; in continuous mode the
eight directions map to 1/100-degree angles at 45-degree increments — in
particular (1,0) maps to 9000 — and (0,0) maps to the reserved maximum
sentinel 4294967295. -/
theorem hatstate_from_xy_spec :
    (∀ d : FourWayHat,
      hatstate_from_xy 1 (-1) (.Discrete d) = .Discrete .North ∧
      hatstate_from_xy (-1) (-1) (.Discrete d) = .Discrete .North ∧
      hatstate_from_xy 0 0 (.Discrete d) = .Discrete .Centered) ∧
    (∀ c : Nat,
      hatstate_from_xy 0 (-1) (.Continuous c) = .Continuous 0 ∧
      hatstate_from_xy 1 (-1) (.Continuous c) = .Continuous 4500 ∧
      hatstate_from_xy 1 0 (.Continuous c) = .Continuous 9000 ∧
      hatstate_from_xy 1 1 (.Continuous c) = .Continuous 13500 ∧
      hatstate_from_xy 0 1 (.Continuous c) = .Continuous 18000 ∧
      hatstate_from_xy (-1) 1 (.Continuous c) = .Continuous 22500 ∧
      hatstate_from_xy (-1) 0 (.Continuous c) = .Continuous 27000 ∧
      hatstate_from_xy (-1) (-1) (.Continuous c) = .Continuous 31500 ∧
      hatstate_from_xy 0 0 (.Continuous c) = .Continuous 4294967295) := by
  constructor
  · intro d
    refine ⟨rfl, rfl, rfl⟩
  · intro c
    refine ⟨rfl, rfl, rfl, rfl, rfl, rfl, rfl, rfl, rfl⟩

/-- C9: half-range tie.  For every u16 previous sequence p, the sequence at
distance exactly 32768 is neither newer than p nor equal to it (and p is
not newer than it either), so a tracking gate classifies it out-of-order,
does not apply it and keeps last_seq = p. -/
theorem half_range_tie (p : Nat) (hp : p < 65536) :
    is_newer_u16 ((p + 32768) % 65536) p = false ∧
    is_newer_u16 p ((p + 32768) % 65536) = false ∧
    (p + 32768) % 65536 ≠ p ∧
    (∀ g : Gate, g.lastSeq = some p →
      gate_step g ((p + 32768) % 65536) = ({ g with ooo := g.ooo + 1 }, .outOfOrder)) := by
  have hd1 : ((p + 32768) % 65536 + 65536 - p) % 65536 = 32768 := by omega
  have hd2 : (p + 65536 - (p + 32768) % 65536) % 65536 = 32768 := by omega
  have hne : (p + 32768) % 65536 ≠ p := by omega
  refine ⟨?_, ?_, hne, ?_⟩
  · simp [is_newer_u16, hd1]
  · simp [is_newer_u16, hd2]
  · intro g hg
    have hnew : ¬(is_newer_u16 ((p + 32768) % 65536) p = true) := by
      simp [is_newer_u16, hd1]
    simp [gate_step, hg, hne, hnew]

/-- C9 witness: the half-range theorem applied at p = 100, giving sequence
32868 classified out-of-order by a gate tracking 100. -/
theorem half_range_tie_witness :
    is_newer_u16 ((100 + 32768) % 65536) 100 = false ∧
    gate_step ⟨some 100, 0, 0, 0, 0⟩ ((100 + 32768) % 65536) =
      (⟨some 100, 0, 0, 1, 0⟩, .outOfOrder) := by
  refine ⟨(half_range_tie 100 (by decide)).1, ?_⟩
  exact (half_range_tie 100 (by decide)).2.2.2 ⟨some 100, 0, 0, 0, 0⟩ rfl

/-- C10: device-id byte independence.  Two payloads of equal length that
agree on every byte except index 5 (the reserved/device-id byte) decode to
the same result; the decoder never inspects byte 5. -/
theorem decode_vkb2_ignores_byte5 (d1 d2 : List Nat)
    (hlen : d1.length = d2.length)
    (h : ∀ i, i ≠ 5 → d1.getD i 0 = d2.getD i 0) :
    decode_vkb2 d1 = decode_vkb2 d2 :=
  decode_vkb2_eq_of_agree d1 d2 (by omega) (fun i _ hi => h i hi)

/-- C10 witness: the byte-5 independence theorem applied to two valid
frames whose reserved bytes are 1 and 200. -/
theorem decode_vkb2_ignores_byte5_witness :
    decode_vkb2 ([86, 75, 66, 50, 2, 1] ++ List.replicate 36 9) =
      decode_vkb2 ([86, 75, 66, 50, 2, 200] ++ List.replicate 36 9) := by
  apply decode_vkb2_ignores_byte5
  · rfl
  · intro i hi
    by_cases hlt : i < 42
    · interval_cases i <;> first | rfl | exact absurd rfl hi
    · rw [List.getD_eq_default, List.getD_eq_default] <;> · simp; omega

end VkbBridge
